import Mathlib

/- Verification development for `ppt_helper.py`: a text-substitution engine over
   styled runs of slide paragraphs (`replace_text` / `replace_in_text`, lines
   136-310) and zip container surgery for embedded spreadsheets
   (`extract_embedded_excel_files` / `replace_embedded_excel_files`, lines
   312-358).  Texts are `List Char`; machine behaviour of the Python `re`
   module is embedded only for the concrete pattern shapes the source builds
   (escaped literals, optionally wrapped in word boundaries, and the two
   generic delimited character-class patterns). -/

abbrev Str := List Char

variable {α : Type} {β : Type}

/-- Python `str.strip()`: drop leading and trailing whitespace (line 181). -/
def pyStrip (s : Str) : Str :=
  ((s.dropWhile Char.isWhitespace).reverse.dropWhile Char.isWhitespace).reverse

/-- Python `s.find(sub, start)` (line 229): least index `i ≥ start` where `sub`
    occurs in `s`, `none` standing for Python's `-1`.  For an empty `sub`
    Python returns `start` when `start ≤ len(s)` and `-1` otherwise, which this
    search over `0..len(s)` reproduces. -/
def strFind (s sub : Str) (start : Nat) : Option Nat :=
  (List.range (s.length + 1)).find? (fun i => decide (start ≤ i) && sub.isPrefixOf (s.drop i))

/-- Index of the rightmost dot of a file name (`name.rfind('.')`). -/
def lastDotIdx (name : Str) : Option Nat :=
  ((List.range name.length).filter (fun i => name.get? i == some '.')).getLast?

/-- `pathlib.Path(path).suffix` (line 153): the extension of the final path
    component, empty when the only dot is leading or there is none. -/
def pySuffix (path : Str) : Str :=
  let name := (List.splitOn '/' path).getLastD []
  match lastDotIdx name with
  | some i => if 0 < i ∧ i + 1 < name.length then name.drop i else []
  | none => []

/-- The extension test of line 153: `file_path.suffix.lower() in ('.pptx', '.ppt')`. -/
def validSuffix (path : Str) : Bool :=
  let s := (pySuffix path).map Char.toLower
  s == ".pptx".toList || s == ".ppt".toList

/-- `re` word character (`\w` over the ASCII inputs considered here). -/
def isWordChar (c : Char) : Bool := c.isAlphanum || c == '_'

/-- Whether position `i` of `s` holds a word character (out of range: no). -/
def wordAt (s : Str) (i : Nat) : Bool :=
  match s.get? i with
  | some c => isWordChar c
  | none => false

/-- `re` word boundary `\b` at position `i`: the word-ness of the characters on
    the two sides of the position differs (virtual characters beyond the ends
    are non-word). -/
def boundaryAt (s : Str) (i : Nat) : Bool :=
  (match i with
   | 0 => false
   | j + 1 => wordAt s j) != wordAt s i

/-- Character comparison under the `re.IGNORECASE` flag of line 194. -/
def eqCI (ci : Bool) (a b : Char) : Bool :=
  if ci then a.toLower == b.toLower else a == b

/-- The escaped-literal regex `re.escape(t)` matches exactly `t` at a position:
    every character agrees (case-folded when `IGNORECASE`). -/
def litMatch (ci : Bool) (cs : Str) (s : Str) (i : Nat) : Bool :=
  decide (i + cs.length ≤ s.length) &&
    ((cs.zip ((s.drop i).take cs.length)).all fun p => eqCI ci p.1 p.2)

/-- First index `k ≥ start` with `s[k] = c`. -/
def firstIdxFrom (s : Str) (c : Char) (start : Nat) : Option Nat :=
  (List.range s.length).find? (fun k => decide (start ≤ k) && (s.get? k == some c))

/-- The regex shapes `replace_in_text` actually compiles (lines 164-169 and
    190-201):
    `lit cs wb` is `re.escape`d literal text `cs`, wrapped in `\b...\b` when
    `wb` is set; `delim od cl` is the generic delimited pattern
    `\<([^>]+)\>` or `\[([^\]]+)\]`: opening delimiter `od`, one or more
    characters other than `cl`, then `cl`. -/
inductive Pat where
  | lit (cs : Str) (wb : Bool)
  | delim (od cl : Char)
deriving DecidableEq

/-- Where a match of pattern `p` starting at position `i` of `s` would end.
    For `delim`, the greedy class `[^c]+` cannot cross an occurrence of the
    closing character, so a match at `i` exists exactly when the first
    occurrence of the closer after `i` is at some `k ≥ i + 2`, and it ends at
    `k + 1`. -/
def matchEndAt (ci : Bool) (p : Pat) (s : Str) (i : Nat) : Option Nat :=
  match p with
  | .lit cs wb =>
    if litMatch ci cs s i && (!wb || (boundaryAt s i && boundaryAt s (i + cs.length))) then
      some (i + cs.length)
    else none
  | .delim od cl =>
    if s.get? i == some od then
      match firstIdxFrom s cl (i + 1) with
      | some k => if i + 2 ≤ k then some (k + 1) else none
      | none => none
    else none

/-- Left-to-right non-overlapping scan of `re.finditer` (line 207): try each
    position; after a match resume at its end.  The fuel argument bounds the
    scan; every step advances the position, so `s.length + 1` steps suffice. -/
def scanIter (ci : Bool) (p : Pat) (s : Str) : Nat → Nat → List (Nat × Nat)
  | 0, _ => []
  | fuel + 1, i =>
    if i ≤ s.length then
      match matchEndAt ci p s i with
      | some j => (i, j) :: scanIter ci p s fuel (max j (i + 1))
      | none => scanIter ci p s fuel (i + 1)
    else []

/-- `list(re.finditer(pattern, full_text, flags))` for the embedded patterns:
    all non-overlapping matches as (start, end) pairs in document order. -/
def finditer (ci : Bool) (p : Pat) (s : Str) : List (Nat × Nat) :=
  scanIter ci p s (s.length + 1) 0

/-- The pattern list built at lines 190-192 for one (already stripped) key,
    each paired with the `original_text` bookkeeping string.

    Line 192 is `pattern.replace(r'[^}]+', re.escape(old_text))`, a plain
    string replacement of the substring `[^}]+` inside each template of
    `placeholder_patterns` (lines 165-168):
    * the double-brace template contains that substring, so the key is
      substituted and the pattern matches the literal delimited key;
    * the angle template contains `[^>]+` and the bracket template `[^\]]+`,
      neither of which contains the substring `[^}]+`, so `.replace` leaves
      them unchanged and they remain the generic delimited patterns matching
      ANY non-empty delimiter-free content. -/
def buildPatterns (old : Str) : List (Pat × Str) :=
  [ (Pat.lit old false, old),
    (Pat.lit ('\x7b' :: '\x7b' :: (old ++ ['\x7d', '\x7d'])) false,
      '\x7b' :: '\x7b' :: (old ++ ['\x7d', '\x7d'])),
    (Pat.delim '<' '>', '<' :: (old ++ ['>'])),
    (Pat.delim '[' ']', '[' :: (old ++ [']'])) ]

/-- The delimiter characters checked at line 199. -/
def delimChars : Str := ['<', '\x7b', '[', '>', '\x7d', ']']

/-- The guard of lines 198-200: word boundaries are added only when
    `whole_word` is set, the pattern's `original_text` is the plain key, and
    the key neither starts nor ends with a delimiter character. -/
def wwCond (whole_word : Bool) (old orig : Str) : Bool :=
  whole_word && orig == old &&
    !(delimChars.any fun c => (orig.head? == some c) || (orig.getLast? == some c))

/-- Wrap a pattern in `\b...\b` (line 201).  Only literal patterns can be
    selected by `wwCond`, whose `orig == old` conjunct fails for the delimited
    patterns (their `original_text` carries the delimiters). -/
def setWb : Pat → Pat
  | .lit cs _ => .lit cs true
  | p => p

/-- The pattern actually searched for a given template pair (lines 196-201). -/
def wwApply (whole_word : Bool) (old : Str) (q : Pat × Str) : Pat :=
  if wwCond whole_word old q.2 then setWb q.1 else q.1

/-- A run object of a paragraph: its text, an opaque style handle (`run.font`)
    and whether its XML element is still attached to the paragraph.  Line 260
    removes an element from the tree but not from the Python `runs` list, so
    detached runs keep participating in later iterations. -/
structure PRun (α : Type) where
  text : Str
  font : α
  attached : Bool
deriving DecidableEq

/-- `full_text = "".join(run.text for run in paragraph.runs)` (lines 278, 296). -/
def fullTextOf (runs : List (PRun α)) : Str :=
  (runs.map (·.text)).flatten

/-- The per-run match overlay of lines 234-243: starting from the empty
    string, every match overlapping the run's range appends the whole run text
    with the overlapped sub-range replaced by the value. -/
def spliceRun (value : Str) (ms : List (Nat × Nat)) (runText : Str) (runStart : Nat) : Str :=
  ms.foldl
    (fun acc m =>
      if runStart + runText.length ≤ m.1 || m.2 ≤ runStart then acc
      else acc ++ runText.take (m.1 - runStart) ++ value ++
        runText.drop (min runText.length (m.2 - runStart)))
    []

/-- The run loop of lines 224-255: walk the runs threading `current_pos`,
    locate each run's current text inside the original `full_text`
    (`run_start = full_text.find(run_text, current_pos)`, line 229; a failed
    find keeps the run unchanged and does not advance the cursor), splice the
    matches in, and restore the original text when the splice result is empty
    (lines 245-246).  The assignment loop of lines 251-255 writes exactly one
    new text per run, which this returns directly. -/
def rebuildRuns (value fullText : Str) (ms : List (Nat × Nat)) :
    List (PRun α) → Nat → List (PRun α)
  | [], _ => []
  | r :: rest, currentPos =>
    match strFind fullText r.text currentPos with
    | none => r :: rebuildRuns value fullText ms rest currentPos
    | some runStart =>
      let nt := spliceRun value ms r.text runStart
      let nt := if nt.isEmpty then r.text else nt
      { r with text := nt } :: rebuildRuns value fullText ms rest (runStart + r.text.length)

/-- The removal loop of lines 257-260: every run whose text is empty has its
    XML element removed from its parent.  For a run already detached by an
    earlier pattern iteration `run._r.getparent()` is `None` and the call
    raises (`none` here); the source iterates the list reversed, but which
    runs get detached and whether the error occurs do not depend on the
    direction, and on error the caller discards all document state. -/
def removeEmptyRuns : List (PRun α) → Option (List (PRun α))
  | [] => some []
  | r :: rest =>
    if r.text.isEmpty then
      if r.attached then (removeEmptyRuns rest).map (fun rs => { r with attached := false } :: rs)
      else none
    else (removeEmptyRuns rest).map (fun rs => r :: rs)

/-- The mutable state of one `replace_in_text` call: the run objects, the
    accumulated `total_count` and the `updated` flag (lines 173-174). -/
structure RState (α : Type) where
  runs : List (PRun α)
  total : Nat
  updated : Bool
deriving DecidableEq

/-- The pattern loop of lines 196-263 for one key.  A pattern with no matches
    in the (original) `full_text` is skipped; otherwise all matches (or just
    the first when `replace_all` is false, lines 213-215) are overlaid on the
    current runs, the count is added, and when `replace_all` is false the
    pattern loop breaks (lines 262-263). -/
def procPatterns (replace_all match_case whole_word : Bool) (full_text old value : Str) :
    List (Pat × Str) → RState α → Option (RState α)
  | [], st => some st
  | q :: rest, st =>
    let ms := finditer (!match_case) (wwApply whole_word old q) full_text
    if ms.isEmpty then
      procPatterns replace_all match_case whole_word full_text old value rest st
    else
      let used := if replace_all then ms else ms.take 1
      let count := if replace_all then ms.length else 1
      match removeEmptyRuns (rebuildRuns value full_text used st.runs 0) with
      | none => none
      | some rs =>
        if replace_all then
          procPatterns replace_all match_case whole_word full_text old value rest
            ⟨rs, st.total + count, true⟩
        else some ⟨rs, st.total + count, true⟩

/-- The key loop of lines 176-263: keys are stripped, blank keys are skipped,
    and each remaining key runs the full pattern loop.  The `break` of line
    263 exits only the pattern loop, so processing continues with the next key
    even when `replace_all` is false. -/
def procKeys (replace_all match_case whole_word : Bool) (full_text : Str) :
    List (Str × Str) → RState α → Option (RState α)
  | [], st => some st
  | (k, v) :: rest, st =>
    let old := pyStrip k
    if old.isEmpty then procKeys replace_all match_case whole_word full_text rest st
    else
      match procPatterns replace_all match_case whole_word full_text old v
          (buildPatterns old) st with
      | none => none
      | some st' => procKeys replace_all match_case whole_word full_text rest st'

/-- `replace_in_text(full_text, runs, replace_dict, replace_all, match_case,
    whole_word)` (lines 171-265), returning the final runs, the total count
    and the updated flag, or `none` when the removal loop raises.  The
    replacement mapping is modelled as an insertion-ordered association list
    of strings (the `isinstance` guard of line 177 is vacuous here). -/
def replace_in_text (full_text : Str) (runs : List (PRun α)) (replace_dict : List (Str × Str))
    (replace_all match_case whole_word : Bool) : Option (RState α) :=
  procKeys replace_all match_case whole_word full_text replace_dict ⟨runs, 0, false⟩

/-- The observable outcome of `replace_text`: the returned pair and the
    document content saved to disk (`none` when no save happened). -/
structure RTOut (α : Type) where
  success : Bool
  total : Nat
  saved : Option (List (List (PRun α)))
deriving DecidableEq

/-- The traversal of lines 267-306 over the document's paragraphs (body text
    and chart titles alike, flattened in visit order).  A paragraph with no
    runs is skipped (lines 274-275); an exception in `replace_in_text`
    propagates to the handler of lines 308-310 giving `(False, 0)` with no
    save; when `replace_all` is false and a replacement happened the file is
    saved immediately and the walk returns early (lines 281-284). -/
def rtWalk (replace_all match_case whole_word : Bool) (replace_dict : List (Str × Str)) :
    List (List (PRun α)) → Nat → List (List (PRun α)) → RTOut α
  | [], total, acc => ⟨true, total, some acc.reverse⟩
  | para :: rest, total, acc =>
    if para.isEmpty then
      rtWalk replace_all match_case whole_word replace_dict rest total (para :: acc)
    else
      match replace_in_text (fullTextOf para) para replace_dict
          replace_all match_case whole_word with
      | none => ⟨false, 0, none⟩
      | some st =>
        if st.updated && !replace_all && decide (0 < total + st.total) then
          ⟨true, total + st.total, some (acc.reverse ++ st.runs :: rest)⟩
        else
          rtWalk replace_all match_case whole_word replace_dict rest
            (total + st.total) (st.runs :: acc)

/-- `replace_text(file_path, replace_dict, replace_all, match_case,
    whole_word)` (lines 136-310).  The existence of the file is a parameter;
    the suffix check is computed from the path (lines 152-155); an empty
    mapping is rejected (lines 157-159); otherwise the document is opened and
    walked. -/
def replace_text (fileExists : Bool) (path : Str) (doc : List (List (PRun α)))
    (replace_dict : List (Str × Str)) (replace_all match_case whole_word : Bool) : RTOut α :=
  if !fileExists || !validSuffix path then ⟨false, 0, none⟩
  else if replace_dict.isEmpty then ⟨false, 0, none⟩
  else rtWalk replace_all match_case whole_word replace_dict doc 0 []

/-- The entry-level metadata a zip member carries beyond its name and payload
    (`ZipInfo`): modification timestamp and compression method. -/
structure ZipMeta where
  date_time : Nat
  compress_type : Nat
deriving DecidableEq

/-- One member of the zip container: name, metadata, raw payload (payloads are
    an opaque type `β`). -/
structure ZipEntry (β : Type) where
  filename : Str
  meta : ZipMeta
  data : β
deriving DecidableEq

/-- The selector of lines 318 and 328: embedded spreadsheets live under
    `ppt/embeddings/` with extension `.xlsx`. -/
def isEmbeddedXlsx (name : Str) : Bool :=
  "ppt/embeddings/".toList.isPrefixOf name && ".xlsx".toList.isSuffixOf name

/-- `extract_embedded_excel_files` (lines 320-329): the name → bytes mapping
    of the selected entries, in container order. -/
def extract_embedded_excel_files (entries : List (ZipEntry β)) : List (Str × β) :=
  (entries.filter fun e => isEmbeddedXlsx e.filename).map fun e => (e.filename, e.data)

/-- `item.filename in updated_files` / `updated_files[item.filename]`
    (lines 343-345) over the association-list model of the dict. -/
def lookupUpd (updates : List (Str × β)) (name : Str) : Option β :=
  (updates.find? fun u => u.1 == name).map (·.2)

/-- The metadata `dst_zip.writestr(filename, data)` fabricates for an updated
    entry (line 345): the current time as its timestamp and the archive's
    compression, `ZIP_DEFLATED` = 8 (line 341). -/
def freshMeta (now : Nat) : ZipMeta := ⟨now, 8⟩

/-- The rebuild loop of lines 342-349: every source entry is written to the
    destination in order; an entry named in `updates` is written as
    `writestr(item.filename, new_bytes)` (fresh metadata), any other as
    `writestr(item, data)` (its `ZipInfo` carried over). -/
def rebuildZip (now : Nat) (updates : List (Str × β)) : List (ZipEntry β) → List (ZipEntry β)
  | [] => []
  | e :: rest =>
    (match lookupUpd updates e.filename with
     | some b => ⟨e.filename, freshMeta now, b⟩
     | none => e) :: rebuildZip now updates rest

/-- How one run of `replace_embedded_excel_files` can go: clean success (the
    rename succeeded, or the copy fallback ran to completion and the temporary
    file was unlinked), an exception after `k` entries were written to the
    temporary file during the rebuild, or a failure inside `shutil.move`'s
    copy fallback after `j` entries' worth of the destination were written. -/
inductive SurgeryOutcome where
  | success
  | failRebuild (k : Nat)
  | failMoveCopy (j : Nat)
deriving DecidableEq

/-- On-disk state after the call: the container at the original path, and the
    temporary file when one is left behind. -/
structure DiskState (β : Type) where
  original : List (ZipEntry β)
  temp : Option (List (ZipEntry β))
deriving DecidableEq

/-- `replace_embedded_excel_files` (lines 331-358).  The rebuild of lines
    340-349 writes only to the temporary file created by `mkstemp` at line
    336, so a rebuild failure leaves the original untouched.  Line 352 then
    calls `shutil.move(temp_path, pptx_path)`: `os.rename` is attempted
    first, but it raises when the destination already exists on Windows (this
    module's target, per its `win32com` imports) or when the system temporary
    directory lies on another volume than the document — the normal situation
    for `mkstemp` — and `shutil.move` then falls back to `copy2` + `unlink`.
    `copy2` opens the existing destination `'wb'`, truncating the original
    container in place, and copies the temporary file's content into it; a
    failure mid-copy therefore leaves a truncated, partially written container
    at the original path (`failMoveCopy j`: the first `j` entries' worth).
    An `unlink` failure after a complete copy leaves the same disk state as
    success.  In every failure case the exception reaches the handler of
    lines 355-358, which removes the temporary file. -/
def replace_embedded_excel_files (outcome : SurgeryOutcome) (now : Nat)
    (updates : List (Str × β)) (orig : List (ZipEntry β)) : DiskState β :=
  let rebuilt := rebuildZip now updates orig
  let attempt : Except (DiskState β) (DiskState β) :=
    match outcome with
    | .success => .ok ⟨rebuilt, none⟩
    | .failRebuild k => .error ⟨orig, some (rebuildZip now updates (orig.take k))⟩
    | .failMoveCopy j => .error ⟨rebuilt.take j, some rebuilt⟩
  match attempt with
  | .ok st => st
  | .error st => ⟨st.original, none⟩

/-- Specification-side counting: the number of matches a single template pair
    contributes against a fixed text. -/
def psCount (match_case whole_word : Bool) (old text : Str) (ps : List (Pat × Str)) : Nat :=
  (ps.map fun q => (finditer (!match_case) (wwApply whole_word old q) text).length).sum

/-- Specification-side counting: matches of all four patterns of one key. -/
def patternsCount (match_case whole_word : Bool) (old text : Str) : Nat :=
  psCount match_case whole_word old text (buildPatterns old)

/-- Specification-side counting: sum over the mapping's keys (blank keys are
    skipped, as at lines 181-184). -/
def keysCount (match_case whole_word : Bool) (replace_dict : List (Str × Str)) (text : Str) : Nat :=
  (replace_dict.map fun kv =>
    if (pyStrip kv.1).isEmpty then 0
    else patternsCount match_case whole_word (pyStrip kv.1) text).sum

/-- Specification-side counting: sum over the document's paragraphs (run-less
    paragraphs are skipped, as at lines 274-275). -/
def docCount (match_case whole_word : Bool) (replace_dict : List (Str × Str))
    (paras : List (List (PRun α))) : Nat :=
  (paras.map fun p =>
    if p.isEmpty then 0
    else keysCount match_case whole_word replace_dict (fullTextOf p)).sum

/-- No pattern of any key of the mapping matches the given text. -/
def noMatches (match_case whole_word : Bool) (replace_dict : List (Str × Str)) (text : Str) : Prop :=
  ∀ kv ∈ replace_dict, ∀ q ∈ buildPatterns (pyStrip kv.1),
    finditer (!match_case) (wwApply whole_word (pyStrip kv.1) q) text = []

instance (mc ww : Bool) (d : List (Str × Str)) (t : Str) : Decidable (noMatches mc ww d t) := by
  unfold noMatches
  infer_instance

/- ## Helper lemmas -/

theorem psCount_cons (mc ww : Bool) (old text : Str) (q : Pat × Str) (ps : List (Pat × Str)) :
    psCount mc ww old text (q :: ps) =
      (finditer (!mc) (wwApply ww old q) text).length + psCount mc ww old text ps := by
  simp [psCount]

theorem keysCount_cons (mc ww : Bool) (k v : Str) (rest : List (Str × Str)) (text : Str) :
    keysCount mc ww ((k, v) :: rest) text =
      (if (pyStrip k).isEmpty then 0 else patternsCount mc ww (pyStrip k) text) +
        keysCount mc ww rest text := by
  simp [keysCount]

theorem docCount_cons (mc ww : Bool) (d : List (Str × Str)) (p : List (PRun α))
    (paras : List (List (PRun α))) :
    docCount mc ww d (p :: paras) =
      (if p.isEmpty then 0 else keysCount mc ww d (fullTextOf p)) + docCount mc ww d paras := by
  simp [docCount]

theorem procPatterns_nomatch (ra mc ww : Bool) (ft old v : Str) (ps : List (Pat × Str))
    (st : RState α) (h : ∀ q ∈ ps, finditer (!mc) (wwApply ww old q) ft = []) :
    procPatterns ra mc ww ft old v ps st = some st := by
  induction ps with
  | nil => rfl
  | cons q rest ih =>
    have hq := h q (by simp)
    have ih' := ih (fun r hr => h r (by simp [hr]))
    simp [procPatterns, hq, ih']

theorem procKeys_nomatch (ra mc ww : Bool) (ft : Str) (d : List (Str × Str)) (st : RState α)
    (h : noMatches mc ww d ft) : procKeys ra mc ww ft d st = some st := by
  induction d with
  | nil => rfl
  | cons kv rest ih =>
    obtain ⟨k, v⟩ := kv
    have hrest : noMatches mc ww rest ft := fun kv2 hkv2 => h kv2 (by simp [hkv2])
    by_cases hke : (pyStrip k).isEmpty = true
    · simp [procKeys, hke, ih hrest]
    · have hp := procPatterns_nomatch ra mc ww ft (pyStrip k) v (buildPatterns (pyStrip k)) st
        (fun q hq => h (k, v) (by simp) q hq)
      simp [procKeys, hke, hp, ih hrest]

theorem rtWalk_nomatch (ra mc ww : Bool) (d : List (Str × Str)) (paras : List (List (PRun α))) :
    ∀ (total : Nat) (acc : List (List (PRun α))),
      (∀ p ∈ paras, noMatches mc ww d (fullTextOf p)) →
      rtWalk ra mc ww d paras total acc = ⟨true, total, some (acc.reverse ++ paras)⟩ := by
  induction paras with
  | nil => intro total acc _; simp [rtWalk]
  | cons p rest ih =>
    intro total acc h
    have hrest := fun q hq => h q (List.mem_cons_of_mem _ hq)
    by_cases hpe : p.isEmpty = true
    · have hw := ih total (p :: acc) hrest
      simp [rtWalk, hpe, hw]
    · have hrt : replace_in_text (fullTextOf p) p d ra mc ww = some ⟨p, 0, false⟩ :=
        procKeys_nomatch ra mc ww (fullTextOf p) d ⟨p, 0, false⟩ (h p (by simp))
      have hw := ih total (p :: acc) hrest
      simp [rtWalk, hpe, hrt, hw]

theorem procPatterns_total (mc ww : Bool) (ft old v : Str) (ps : List (Pat × Str)) :
    ∀ (st st' : RState α), procPatterns true mc ww ft old v ps st = some st' →
      st'.total = st.total + psCount mc ww old ft ps := by
  induction ps with
  | nil =>
    intro st st' h
    simp [procPatterns] at h
    simp [← h, psCount]
  | cons q rest ih =>
    intro st st' h
    rw [psCount_cons]
    cases hfe : finditer (!mc) (wwApply ww old q) ft with
    | nil =>
      simp [procPatterns, hfe] at h
      have hts := ih st st' h
      simpa using hts
    | cons m ms' =>
      simp [procPatterns, hfe] at h
      cases hrem : removeEmptyRuns (rebuildRuns v ft (m :: ms') st.runs 0) with
      | none => simp [hrem] at h
      | some rs =>
        simp [hrem] at h
        have hts := ih _ st' h
        simp at hts
        simp only [List.length_cons]
        omega

theorem procKeys_total (mc ww : Bool) (ft : Str) (d : List (Str × Str)) :
    ∀ (st st' : RState α), procKeys true mc ww ft d st = some st' →
      st'.total = st.total + keysCount mc ww d ft := by
  induction d with
  | nil =>
    intro st st' h
    simp [procKeys] at h
    simp [← h, keysCount]
  | cons kv rest ih =>
    obtain ⟨k, v⟩ := kv
    intro st st' h
    by_cases hke : (pyStrip k).isEmpty = true
    · rw [keysCount_cons, if_pos hke]
      simp only [procKeys] at h
      rw [if_pos hke] at h
      have hts := ih st st' h
      omega
    · rw [keysCount_cons, if_neg hke]
      simp only [procKeys] at h
      rw [if_neg hke] at h
      cases hp : procPatterns true mc ww ft (pyStrip k) v (buildPatterns (pyStrip k)) st with
      | none => simp [hp] at h
      | some st1 =>
        simp [hp] at h
        have h1 := procPatterns_total mc ww ft (pyStrip k) v (buildPatterns (pyStrip k)) st st1 hp
        have h2 := ih st1 st' h
        simp only [patternsCount]
        omega

theorem replace_in_text_total (mc ww : Bool) (ft : Str) (d : List (Str × Str))
    (runs : List (PRun α)) (st : RState α)
    (h : replace_in_text ft runs d true mc ww = some st) :
    st.total = keysCount mc ww d ft := by
  have h' : procKeys true mc ww ft d ⟨runs, 0, false⟩ = some st := h
  have hts := procKeys_total mc ww ft d ⟨runs, 0, false⟩ st h'
  simpa using hts

theorem rtWalk_total (mc ww : Bool) (d : List (Str × Str)) (paras : List (List (PRun α))) :
    ∀ (total : Nat) (acc : List (List (PRun α))),
      (rtWalk true mc ww d paras total acc).success = true →
      (rtWalk true mc ww d paras total acc).total = total + docCount mc ww d paras := by
  induction paras with
  | nil => intro total acc _; simp [rtWalk, docCount]
  | cons p rest ih =>
    intro total acc hs
    by_cases hpe : p.isEmpty = true
    · simp only [rtWalk] at hs ⊢
      rw [if_pos hpe] at hs ⊢
      rw [docCount_cons, if_pos hpe]
      have hts := ih total (p :: acc) hs
      omega
    · simp only [rtWalk] at hs ⊢
      rw [if_neg hpe] at hs ⊢
      cases hrt : replace_in_text (fullTextOf p) p d true mc ww with
      | none => simp [hrt] at hs
      | some st =>
        simp [hrt] at hs ⊢
        have h1 := replace_in_text_total mc ww (fullTextOf p) d p st hrt
        have h2 := ih (total + st.total) (st.runs :: acc) hs
        rw [h2, docCount_cons, if_neg hpe]
        omega

theorem extract_cons (a : ZipEntry β) (rest : List (ZipEntry β)) :
    extract_embedded_excel_files (a :: rest) =
      (if isEmbeddedXlsx a.filename then [(a.filename, a.data)] else []) ++
        extract_embedded_excel_files rest := by
  by_cases h : isEmbeddedXlsx a.filename <;>
    simp [extract_embedded_excel_files, List.filter_cons, h]

theorem lookupUpd_extract_not_mem (entries : List (ZipEntry β)) (name : Str)
    (h : name ∉ entries.map (·.filename)) :
    lookupUpd (extract_embedded_excel_files entries) name = none := by
  have hf : (extract_embedded_excel_files entries).find? (fun u => u.1 == name) = none := by
    apply List.find?_eq_none.mpr
    intro u hu
    simp only [extract_embedded_excel_files, List.mem_map, List.mem_filter] at hu
    obtain ⟨e, ⟨he, _⟩, rfl⟩ := hu
    simp only [beq_iff_eq]
    intro hEq
    subst hEq
    exact h (List.mem_map_of_mem _ he)
  simp [lookupUpd, hf]

theorem lookupUpd_extract (entries : List (ZipEntry β)) :
    (entries.map (·.filename)).Nodup →
    ∀ e ∈ entries, lookupUpd (extract_embedded_excel_files entries) e.filename =
      if isEmbeddedXlsx e.filename then some e.data else none := by
  induction entries with
  | nil => intro _ e he; simp at he
  | cons a rest ih =>
    intro hnd e he
    rw [List.map_cons, List.nodup_cons] at hnd
    obtain ⟨hafn, hndr⟩ := hnd
    rcases List.mem_cons.mp he with rfl | her
    · by_cases hsel : isEmbeddedXlsx e.filename
      · rw [extract_cons, if_pos hsel]
        simp [lookupUpd, List.find?, hsel]
      · rw [extract_cons, if_neg hsel]
        rw [if_neg hsel]
        simpa using lookupUpd_extract_not_mem rest e.filename hafn
    · have hih := ih hndr e her
      have hne : (a.filename == e.filename) = false := by
        rw [beq_eq_false_iff_ne]
        intro hEq
        exact hafn (hEq ▸ List.mem_map_of_mem _ her)
      by_cases hsel : isEmbeddedXlsx a.filename
      · rw [extract_cons, if_pos hsel]
        simpa [lookupUpd, List.find?, hne] using hih
      · rw [extract_cons, if_neg hsel]
        simpa using hih

theorem rebuildZip_congr (now : Nat) (upd : List (Str × β)) :
    ∀ entries : List (ZipEntry β),
      (∀ e ∈ entries, lookupUpd upd e.filename =
        if isEmbeddedXlsx e.filename then some e.data else none) →
      rebuildZip now upd entries =
        entries.map fun e =>
          if isEmbeddedXlsx e.filename then ⟨e.filename, freshMeta now, e.data⟩ else e := by
  intro entries h
  induction entries with
  | nil => rfl
  | cons a rest ih =>
    have ha := h a (by simp)
    have ih' := ih (fun e he => h e (by simp [he]))
    by_cases hsel : isEmbeddedXlsx a.filename
    · rw [if_pos hsel] at ha
      simp [rebuildZip, ha, hsel, ih']
    · rw [if_neg hsel] at ha
      simp [rebuildZip, ha, hsel, ih']

/- ## Claim theorems -/

/-- C1: evaluating `replace_text` on the spec's end-to-end scenario 1 — mapping
    name → Acme, one single-run paragraph "Hello \x7b\x7bname\x7d\x7d, welcome
    <name>!", replaceAll, case-insensitive, whole-word.  The plain `\bname\b`
    pattern matches twice inside the delimiters, and the per-match overlay of
    lines 236-243 appends the whole run text once per match, so the saved
    paragraph text is duplicated and the count is 4 — not the claimed
    "Hello Acme, welcome Acme!" with count 2. -/
theorem scenario1_actual_behavior :
    replace_text true "deck.pptx".toList
      [[⟨"Hello \x7b\x7bname\x7d\x7d, welcome <name>!".toList, (0 : Nat), true⟩]]
      [("name".toList, "Acme".toList)] true false true =
    ⟨true, 4,
      some [[⟨("Hello \x7b\x7bAcme\x7d\x7d, welcome <name>!Hello \x7b\x7bname\x7d\x7d, welcome <Acme>!").toList,
        0, true⟩]]⟩ := by
  decide

/-- C2: the pattern expansion for key "name" does contain an angle-style and a
    bracket-style pattern, but they are the generic delimited patterns — line
    192's string replacement of `[^\x7d]+` misses the `[^>]+` and `[^\]]+`
    character classes — so the angle pattern matches "<other>" and the bracket
    pattern matches "[xyz]", delimited content that is not the key. -/
theorem angle_bracket_patterns_generic :
    (Pat.delim '<' '>', "<name>".toList) ∈ buildPatterns "name".toList ∧
    (Pat.delim '[' ']', "[name]".toList) ∈ buildPatterns "name".toList ∧
    finditer false (Pat.delim '<' '>') "<other>".toList = [(0, 7)] ∧
    finditer false (Pat.delim '[' ']') "[xyz]".toList = [(0, 5)] := by
  decide

/-- C3: a paragraph whose text "<zzz>" contains none of the four spellings of
    the only key "name" is nevertheless rewritten to "Acme" with count 1 by one
    pass, because the generic angle pattern of line 192 matches any
    angle-delimited content. -/
theorem nonmatching_paragraph_rewritten :
    strFind "<zzz>".toList "name".toList 0 = none ∧
    strFind "<zzz>".toList "\x7b\x7bname\x7d\x7d".toList 0 = none ∧
    strFind "<zzz>".toList "<name>".toList 0 = none ∧
    strFind "<zzz>".toList "[name]".toList 0 = none ∧
    replace_in_text "<zzz>".toList [⟨"<zzz>".toList, (0 : Nat), true⟩]
      [("name".toList, "Acme".toList)] true false true =
      some ⟨[⟨"Acme".toList, 0, true⟩], 1, true⟩ := by
  decide

/-- C4: with replaceAll false, the `break` of line 263 exits only the pattern
    loop, so after key "aaa" replaces at offset 4, key "bbb" still replaces at
    offset 0 in the same paragraph: the paragraph's count is 2, and the match
    applied first ("aaa") is not the first match of the paragraph. -/
theorem replace_first_processes_further_keys :
    replace_in_text "bbb aaa".toList [⟨"bbb aaa".toList, (0 : Nat), true⟩]
      [("aaa".toList, "x".toList), ("bbb".toList, "y".toList)] false true false =
      some ⟨[⟨"bbb x".toList, 0, true⟩], 2, true⟩ := by
  decide

/-- C5 counterexample: Extract immediately followed by Substitute with the
    identical bytes does NOT leave the container byte-identical: the updated
    entry is written by `writestr(filename, bytes)` (line 345), which fabricates
    fresh metadata (timestamp 200, deflate) in place of the source entry's
    metadata (timestamp 100, stored). -/
theorem noop_substitute_changes_metadata :
    (replace_embedded_excel_files .success 200
      (extract_embedded_excel_files
        [⟨"ppt/embeddings/oleObject1.xlsx".toList, ⟨100, 0⟩, (7 : Nat)⟩])
      [⟨"ppt/embeddings/oleObject1.xlsx".toList, ⟨100, 0⟩, (7 : Nat)⟩]).original ≠
    [⟨"ppt/embeddings/oleObject1.xlsx".toList, ⟨100, 0⟩, (7 : Nat)⟩] := by
  decide

/-- C5 (amended): Extract followed by Substitute with the identical bytes
    preserves every entry's name, payload and position; entries not selected by
    Extract are byte-identical, while the selected (re-written) entries carry
    fresh metadata from `writestr`. -/
theorem noop_substitute_payloads_preserved :
    ∀ (β : Type) (entries : List (ZipEntry β)) (now : Nat),
      (entries.map (·.filename)).Nodup →
      (replace_embedded_excel_files .success now
          (extract_embedded_excel_files entries) entries).original =
        entries.map fun e =>
          if isEmbeddedXlsx e.filename then ⟨e.filename, freshMeta now, e.data⟩ else e := by
  intro β entries now hnd
  show rebuildZip now (extract_embedded_excel_files entries) entries = _
  exact rebuildZip_congr now _ entries (lookupUpd_extract entries hnd)

theorem noop_substitute_payloads_preserved_witness :
    (replace_embedded_excel_files .success 5
      (extract_embedded_excel_files
        [⟨"ppt/embeddings/oleObject1.xlsx".toList, ⟨1, 0⟩, (7 : Nat)⟩,
         ⟨"ppt/slides/slide1.xml".toList, ⟨2, 8⟩, 9⟩])
      [⟨"ppt/embeddings/oleObject1.xlsx".toList, ⟨1, 0⟩, (7 : Nat)⟩,
       ⟨"ppt/slides/slide1.xml".toList, ⟨2, 8⟩, 9⟩]).original =
    ([⟨"ppt/embeddings/oleObject1.xlsx".toList, ⟨1, 0⟩, (7 : Nat)⟩,
      ⟨"ppt/slides/slide1.xml".toList, ⟨2, 8⟩, (9 : Nat)⟩].map fun e =>
        if isEmbeddedXlsx e.filename then ⟨e.filename, freshMeta 5, e.data⟩ else e) :=
  noop_substitute_payloads_preserved Nat _ 5 (by decide)

/-- C6 counterexample: a failure during the move is not harmless to the
    original container.  `shutil.move`'s copy fallback truncates the original
    in place, so failing after one of two entries were copied leaves a partial
    container (just the first entry) at the original path — here even for a
    rebuild with no updates at all.  Only the temporary file is discarded. -/
theorem move_copy_failure_leaves_partial :
    (replace_embedded_excel_files (.failMoveCopy 1) 200 []
        [⟨"ppt/embeddings/oleObject1.xlsx".toList, ⟨100, 0⟩, (7 : Nat)⟩,
         ⟨"ppt/slides/slide1.xml".toList, ⟨50, 8⟩, 9⟩]) =
      ⟨[⟨"ppt/embeddings/oleObject1.xlsx".toList, ⟨100, 0⟩, (7 : Nat)⟩], none⟩ ∧
    (replace_embedded_excel_files (.failMoveCopy 1) 200 []
        [⟨"ppt/embeddings/oleObject1.xlsx".toList, ⟨100, 0⟩, (7 : Nat)⟩,
         ⟨"ppt/slides/slide1.xml".toList, ⟨50, 8⟩, 9⟩]).original ≠
      [⟨"ppt/embeddings/oleObject1.xlsx".toList, ⟨100, 0⟩, (7 : Nat)⟩,
       ⟨"ppt/slides/slide1.xml".toList, ⟨50, 8⟩, 9⟩] := by
  decide

/-- C6 (amended): the rebuilt container is written to a temporary file first,
    so a failure during the rebuild leaves the original container untouched
    and discards the temporary file; on success the rebuilt container ends up
    at the original path with no temporary file left behind.  A failure inside
    `shutil.move`'s copy fallback, however, leaves a truncated, partially
    written container at the original path (the temporary file is still
    discarded by the handler of lines 355-358). -/
theorem substitute_temp_file_discipline :
    ∀ (β : Type) (now : Nat) (updates : List (Str × β)) (orig : List (ZipEntry β)),
      (∀ k : Nat, replace_embedded_excel_files (.failRebuild k) now updates orig =
        ⟨orig, none⟩) ∧
      (replace_embedded_excel_files .success now updates orig =
        ⟨rebuildZip now updates orig, none⟩) ∧
      (∀ j : Nat, replace_embedded_excel_files (.failMoveCopy j) now updates orig =
        ⟨(rebuildZip now updates orig).take j, none⟩) := by
  intro β now updates orig
  exact ⟨fun k => rfl, rfl, fun j => rfl⟩

/-- C7: `replace_text` rejects a missing file, an invalid extension, or an
    empty mapping up front, returning (false, 0) with no save; a valid document
    whose mapping matches nothing still succeeds with count 0 (and is saved
    unchanged). -/
theorem replace_text_validation :
    (∀ (α : Type) (path : Str) (doc : List (List (PRun α))) (d : List (Str × Str))
        (ra mc ww : Bool),
      replace_text false path doc d ra mc ww = ⟨false, 0, none⟩) ∧
    (∀ (α : Type) (path : Str) (doc : List (List (PRun α))) (d : List (Str × Str))
        (ra mc ww : Bool),
      validSuffix path = false → replace_text true path doc d ra mc ww = ⟨false, 0, none⟩) ∧
    (∀ (α : Type) (fe : Bool) (path : Str) (doc : List (List (PRun α))) (ra mc ww : Bool),
      replace_text fe path doc [] ra mc ww = ⟨false, 0, none⟩) ∧
    (∀ (α : Type) (path : Str) (doc : List (List (PRun α))) (d : List (Str × Str))
        (ra mc ww : Bool),
      validSuffix path = true → d.isEmpty = false →
      (∀ para ∈ doc, noMatches mc ww d (fullTextOf para)) →
      replace_text true path doc d ra mc ww = ⟨true, 0, some doc⟩) := by
  refine ⟨?_, ?_, ?_, ?_⟩
  · intro α path doc d ra mc ww
    simp [replace_text]
  · intro α path doc d ra mc ww h
    simp [replace_text, h]
  · intro α fe path doc ra mc ww
    cases fe <;> by_cases hv : validSuffix path = true <;> simp [replace_text, hv]
  · intro α path doc d ra mc ww hv hd hnm
    have hw := rtWalk_nomatch ra mc ww d doc 0 [] hnm
    simp [replace_text, hv, hd, hw]

theorem replace_text_validation_witness :
    replace_text false "deck.pptx".toList ([] : List (List (PRun Nat)))
      [("a".toList, "b".toList)] true true true = ⟨false, 0, none⟩ ∧
    replace_text true "doc.txt".toList ([] : List (List (PRun Nat)))
      [("a".toList, "b".toList)] true true true = ⟨false, 0, none⟩ ∧
    replace_text true "deck.pptx".toList ([] : List (List (PRun Nat))) [] true true true =
      ⟨false, 0, none⟩ ∧
    replace_text true "deck.pptx".toList [[⟨"hi".toList, (0 : Nat), true⟩]]
      [("zz".toList, "y".toList)] true true false =
      ⟨true, 0, some [[⟨"hi".toList, 0, true⟩]]⟩ :=
  ⟨replace_text_validation.1 Nat _ _ _ true true true,
   replace_text_validation.2.1 Nat _ _ _ true true true (by decide),
   replace_text_validation.2.2.1 Nat true _ _ true true true,
   replace_text_validation.2.2.2 Nat _ _ _ true true false (by decide) (by decide) (by decide)⟩

/-- C8: a match whose replacement value is empty and which covers an entire
    fragment does NOT cause the fragment to be dropped: the splice result is
    the empty string, so lines 245-246 restore the fragment's original text and
    the removal loop of lines 257-260 finds nothing to remove — the run
    survives, attached and with its pre-rewrite text "abc", while the count is
    still 1. -/
theorem empty_replacement_restores_run :
    replace_in_text "abc".toList [⟨"abc".toList, (0 : Nat), true⟩]
      [("abc".toList, "".toList)] true true false =
      some ⟨[⟨"abc".toList, 0, true⟩], 1, true⟩ := by
  decide

/-- C9: with replaceAll, the total returned by `replace_text` is the sum over
    paragraphs, keys and the four patterns per key of the number of regex
    matches against the paragraph's original concatenated text; concretely, the
    single occurrence "\x7b\x7bname\x7d\x7d" is counted once by the plain
    `\bname\b` pattern (match (2,6)) and again by the double-brace pattern
    (match (0,8)), giving count 2 for one placeholder. -/
theorem total_count_is_pattern_match_sum :
    (∀ (α : Type) (fe : Bool) (path : Str) (doc : List (List (PRun α)))
        (d : List (Str × Str)) (mc ww : Bool),
      (replace_text fe path doc d true mc ww).success = true →
      (replace_text fe path doc d true mc ww).total = docCount mc ww d doc) ∧
    replace_in_text "\x7b\x7bname\x7d\x7d".toList
        [⟨"\x7b\x7bname\x7d\x7d".toList, (0 : Nat), true⟩]
        [("name".toList, "Acme".toList)] true false true =
      some ⟨[⟨"\x7b\x7bAcme\x7d\x7d".toList, 0, true⟩], 2, true⟩ ∧
    finditer true (wwApply true "name".toList (Pat.lit "name".toList false, "name".toList))
        "\x7b\x7bname\x7d\x7d".toList = [(2, 6)] ∧
    finditer true (Pat.lit "\x7b\x7bname\x7d\x7d".toList false)
        "\x7b\x7bname\x7d\x7d".toList = [(0, 8)] := by
  refine ⟨?_, by decide, by decide, by decide⟩
  intro α fe path doc d mc ww hs
  by_cases h1 : (!fe || !validSuffix path) = true
  · simp [replace_text, h1] at hs
  · by_cases h2 : d.isEmpty = true
    · simp [replace_text, h1, h2] at hs
    · simp only [replace_text] at hs ⊢
      rw [if_neg h1, if_neg h2] at hs ⊢
      have hts := rtWalk_total mc ww d doc 0 [] hs
      simpa using hts

theorem total_count_is_pattern_match_sum_witness :
    (replace_text true "deck.pptx".toList
        [[⟨"\x7b\x7bname\x7d\x7d".toList, (0 : Nat), true⟩]]
        [("name".toList, "Acme".toList)] true false true).total =
      docCount false true [("name".toList, "Acme".toList)]
        [[⟨"\x7b\x7bname\x7d\x7d".toList, (0 : Nat), true⟩]] :=
  total_count_is_pattern_match_sum.1 Nat true "deck.pptx".toList _ _ false true (by decide)

/-- C10: the container rebuilt by `replace_embedded_excel_files` has exactly
    the source container's entry names in the source order, whatever the
    updates mapping holds — keys naming no existing entry are ignored, and no
    entry is added or removed. -/
theorem rebuild_preserves_entry_names :
    ∀ (β : Type) (now : Nat) (updates : List (Str × β)) (entries : List (ZipEntry β)),
      (replace_embedded_excel_files .success now updates entries).original.map (·.filename) =
        entries.map (·.filename) := by
  intro β now upd entries
  show (rebuildZip now upd entries).map (·.filename) = _
  induction entries with
  | nil => rfl
  | cons a rest ih =>
    cases h : lookupUpd upd a.filename <;> simp [rebuildZip, h, ih]
